import Mathlib

/-!
# Verification of the activity-planner scheduling / timer core

Shallow embedding of src/activity_planner/timer_service.py and the
scheduling logic of src/activity_planner/notification_manager.py.

Modelling conventions:
* `datetime` values are integers counting microseconds (Python datetimes
  have exactly microsecond resolution); a `timedelta` is their difference.
  The injectable time provider of `TimerService` becomes an explicit
  `now : ℤ` argument on every operation that calls it (each operation
  calls the provider at most once).  For multi-call flows a stream
  `tp : ℕ → ℤ` with a call counter is threaded instead.
* `int(delta.total_seconds())` truncates the signed second count toward
  zero (`pyTrunc`, using `Int.tdiv`); `int(delta.total_seconds() * 1000)`
  is the analogous whole-millisecond truncation (`pyTruncMs`).  The float
  rounding of `total_seconds` is ignored (exact for every delta below
  about 104 days).
* `_dt_to_iso` drops the microsecond field of a (non-negative) datetime,
  so persisted timestamps are the whole-second count `isoSecond`.
* The SQLite table `activity_instances` is an append-only list of rows;
  a row's id is its 1-based position (AUTOINCREMENT on an append-only
  table), matching `_last_row_id` after `create_activity_instance`.
* Qt signals become a list of emitted `Sig` values, in emission order.
-/

namespace ActivityPlanner

/-- Microseconds per second. -/
def usPerSec : ℤ := 1000000

/-- `int(delta.total_seconds())` for a delta of `d` microseconds:
truncation toward zero to whole seconds. -/
def pyTrunc (d : ℤ) : ℤ := d.tdiv usPerSec

/-- `int(delta.total_seconds() * 1000)` for a delta of `d` microseconds:
truncation toward zero to whole milliseconds. -/
def pyTruncMs (d : ℤ) : ℤ := d.tdiv 1000

/-- `_dt_to_iso`: `dt.replace(microsecond=0)` zeroes the microsecond
field, leaving the whole-second count of the datetime. -/
def isoSecond (dt : ℤ) : ℤ := dt.fdiv usPerSec

/-- Timer state machine states (`TimerService._state` strings). -/
inductive TState
  | idle
  | running
  | paused
deriving DecidableEq, Repr

/-- One row of the `activity_instances` table, as touched by
`create_activity_instance` / `update_activity_instance_end`. -/
structure InstanceRow where
  activity_id : ℕ
  start_time : ℤ
  end_time : Option ℤ
  duration_seconds : Option ℤ
deriving DecidableEq, Repr

/-- The `activity_instances` table; row ids are 1-based positions. -/
abbrev DB := List InstanceRow

/-- `update_activity_instance_end`: set end time and duration on the row
with the given id. -/
def updateInstanceEnd (db : DB) (instId : ℕ) (endT : ℤ) (dur : ℤ) : DB :=
  db.enum.map fun p =>
    if p.1 + 1 = instId then
      { p.2 with end_time := some endT, duration_seconds := some dur }
    else p.2

/-- Qt signals of `TimerService`, in emission order. -/
inductive Sig
  | tick (elapsed : ℤ)
  | started (instanceId : ℕ)
  | sigPaused
  | sigResumed
  | stopped (instanceId : ℕ) (duration : ℤ)
  | stateChanged (s : TState)
deriving DecidableEq, Repr

/-- The mutable fields of `TimerService` (`qtimer_active` models whether
the 1-second `QTimer` is running). -/
structure TimerSvc where
  state : TState
  activity_id : Option ℕ
  instance_id : Option ℕ
  start_dt : Option ℤ
  paused_accum : ℤ
  last_resume_dt : Option ℤ
  qtimer_active : Bool
deriving DecidableEq, Repr

/-- `TimerService.__init__` field values. -/
def TimerSvc.init : TimerSvc :=
  { state := .idle, activity_id := none, instance_id := none,
    start_dt := none, paused_accum := 0, last_resume_dt := none,
    qtimer_active := false }

/-- `TimerService._set_state`: update state, emitting `state_changed`
only on an actual change. -/
def setState (s : TimerSvc) (ns : TState) : TimerSvc × List Sig :=
  if ns = s.state then (s, []) else ({ s with state := ns }, [.stateChanged ns])

/-- The typed error of `TimerService.start` (spec: `AlreadyActiveError`). -/
inductive TimerError
  | alreadyActive
deriving DecidableEq, Repr

/-- Successful result of `TimerService.start`. -/
structure StartOk where
  svc : TimerSvc
  db : DB
  ret : ℕ
  sigs : List Sig
deriving DecidableEq, Repr

/-- `TimerService.start`. -/
def TimerSvc.start (s : TimerSvc) (db : DB) (now : ℤ) (activityId : ℕ) :
    Except TimerError StartOk :=
  if s.state = .running ∨ s.state = .paused then
    .error .alreadyActive
  else
    let row : InstanceRow :=
      { activity_id := activityId, start_time := isoSecond now,
        end_time := none, duration_seconds := none }
    let db' := db ++ [row]
    let instId := db.length + 1
    let s1 := { s with activity_id := some activityId, start_dt := some now,
                       last_resume_dt := some now, instance_id := some instId,
                       paused_accum := 0, qtimer_active := true }
    let p := setState s1 .running
    .ok { svc := p.1, db := db', ret := instId,
          sigs := p.2 ++ [.started instId, .tick 0] }

/-- `TimerService.pause`. -/
def TimerSvc.pause (s : TimerSvc) (now : ℤ) : TimerSvc × List Sig :=
  if s.state ≠ .running then (s, [])
  else
    let s1 :=
      match s.last_resume_dt with
      | some r => { s with paused_accum := s.paused_accum + pyTrunc (now - r) }
      | none => s
    let s2 := { s1 with qtimer_active := false }
    let p := setState s2 .paused
    (p.1, p.2 ++ [.sigPaused])

/-- `TimerService.resume`. -/
def TimerSvc.resume (s : TimerSvc) (now : ℤ) : TimerSvc × List Sig :=
  if s.state ≠ .paused then (s, [])
  else
    let s1 := { s with last_resume_dt := some now, qtimer_active := true }
    let p := setState s1 .running
    (p.1, p.2 ++ [.sigResumed])

/-- Result of `TimerService.stop`. -/
structure StopRes where
  svc : TimerSvc
  db : DB
  ret : Option ℕ
  sigs : List Sig
deriving DecidableEq, Repr

/-- `TimerService.stop`. -/
def TimerSvc.stop (s : TimerSvc) (db : DB) (now : ℤ) : StopRes :=
  if s.state = .idle then { svc := s, db := db, ret := none, sigs := [] }
  else
    let s1 := { s with qtimer_active := false }
    let s2 :=
      if s.state = .running then
        match s.last_resume_dt with
        | some r => { s1 with paused_accum := s1.paused_accum + pyTrunc (now - r) }
        | none => s1
      else s1
    let dur := s2.paused_accum
    let instId := s.instance_id
    let db' :=
      match instId with
      | some i => updateInstanceEnd db i (isoSecond now) dur
      | none => db
    let s3 := { s2 with activity_id := none, instance_id := none,
                        start_dt := none, last_resume_dt := none,
                        paused_accum := 0 }
    let p := setState s3 .idle
    let endSigs :=
      match instId with
      | some i => [Sig.stopped i dur]
      | none => []
    { svc := p.1, db := db', ret := instId, sigs := p.2 ++ endSigs }

/-- `TimerService._on_tick`: signals emitted by one tick callback. -/
def TimerSvc.onTick (s : TimerSvc) (now : ℤ) : List Sig :=
  if s.state ≠ .running then []
  else
    match s.last_resume_dt with
    | none => []
    | some r => [.tick (s.paused_accum + pyTrunc (now - r))]

/-! ## A driver for arbitrary operation sequences -/

/-- One external call on the timer service (`tick` is the periodic
`_on_tick` callback). -/
inductive Op
  | start (aid : ℕ)
  | pause
  | resume
  | stop
  | tick
deriving DecidableEq, Repr

/-- Timer service together with its database and its emitted signals. -/
structure Sys where
  svc : TimerSvc
  db : DB
  out : List Sig
deriving DecidableEq, Repr

def Sys.init : Sys := { svc := TimerSvc.init, db := [], out := [] }

/-- Apply one operation, `now` being the value the time provider returns
for this operation's (single) provider call.  A `start` that raises leaves
every field untouched (the exception is raised before any mutation). -/
def applyOp (sys : Sys) (op : Op) (now : ℤ) : Sys :=
  match op with
  | .start aid =>
    match sys.svc.start sys.db now aid with
    | .ok r => { svc := r.svc, db := r.db, out := sys.out ++ r.sigs }
    | .error _ => sys
  | .pause =>
    let p := sys.svc.pause now
    { svc := p.1, db := sys.db, out := sys.out ++ p.2 }
  | .resume =>
    let p := sys.svc.resume now
    { svc := p.1, db := sys.db, out := sys.out ++ p.2 }
  | .stop =>
    let r := TimerSvc.stop sys.svc sys.db now
    { svc := r.svc, db := r.db, out := sys.out ++ r.sigs }
  | .tick =>
    { sys with out := sys.out ++ TimerSvc.onTick sys.svc now }

/-- Run a list of operations, each paired with its provider value. -/
def runOps (sys : Sys) : List (Op × ℤ) → Sys
  | [] => sys
  | p :: rest => runOps (applyOp sys p.1 p.2) rest

/-! ## Notification manager: schedule building -/

/-- Python `int(str)`: strip surrounding whitespace, optional single sign,
then a non-empty run of decimal digits (underscore digit-grouping is not
modelled). -/
def pyInt (s : String) : Option ℤ :=
  let t := s.trim
  let neg := t.startsWith "-"
  let core := if t.startsWith "+" || t.startsWith "-" then t.drop 1 else t
  if core.length = 0 || !(core.all Char.isDigit) then none
  else
    let n : ℕ := core.foldl (fun acc c => acc * 10 + (c.toNat - 48)) 0
    some (if neg then -(n : ℤ) else (n : ℤ))

/-- `_parse_hhmm`: `hh, mm = hhmm.split(":")` (exactly two parts, each a
Python int), then `time(int(hh), int(mm))`, which raises unless
`0 ≤ hh ≤ 23` and `0 ≤ mm ≤ 59`.  Any failure is `none` (the caller's
`except Exception: continue`). -/
def parseHHMM (s : String) : Option (ℤ × ℤ) :=
  match s.splitOn ":" with
  | [hh, mm] =>
    match pyInt hh, pyInt mm with
    | some h, some m =>
      if 0 ≤ h ∧ h ≤ 23 ∧ 0 ≤ m ∧ m ≤ 59 then some (h, m) else none
    | _, _ => none
  | _ => none

/-- A timetable entry as read from storage (`list_timetable_entries`). -/
structure TimetableEntry where
  id : ℕ
  activity_id : ℕ
  start_time : String
  end_time : String
  notes : Option String
deriving DecidableEq, Repr

inductive EventKind
  | evStart
  | evEnd
deriving DecidableEq, Repr

/-- `TimetableEvent` of notification_manager.py.  All of today's events
share the same date component, so `when` is the time of day in seconds. -/
structure TimetableEvent where
  when : ℤ
  kind : EventKind
  entry_id : ℕ
  activity_id : ℕ
  start_time : String
  end_time : String
  notes : String
deriving DecidableEq, Repr

/-- The events one entry contributes in `_build_today_schedule`'s loop:
two on success, none when a time string fails to parse or `end ≤ start`. -/
def eventsOfEntry (e : TimetableEntry) : List TimetableEvent :=
  match parseHHMM e.start_time, parseHHMM e.end_time with
  | some st, some et =>
    let startDt : ℤ := (st.1 * 3600 + st.2 * 60) * usPerSec
    let endDt : ℤ := (et.1 * 3600 + et.2 * 60) * usPerSec
    if endDt ≤ startDt then []
    else
      [{ when := startDt, kind := .evStart, entry_id := e.id,
         activity_id := e.activity_id, start_time := e.start_time,
         end_time := e.end_time, notes := e.notes.getD "" },
       { when := endDt, kind := .evEnd, entry_id := e.id,
         activity_id := e.activity_id, start_time := e.start_time,
         end_time := e.end_time, notes := e.notes.getD "" }]
  | _, _ => []

/-- An entry survives the build loop iff both times parse and end > start. -/
def validEntry (e : TimetableEntry) : Bool :=
  match parseHHMM e.start_time, parseHHMM e.end_time with
  | some st, some et =>
    decide (((st.1 * 3600 + st.2 * 60) * usPerSec : ℤ) <
      (et.1 * 3600 + et.2 * 60) * usPerSec)
  | _, _ => false

/-- The sort key comparison of `self._events.sort(key=lambda ev: ev.when)`. -/
def leWhen (a b : TimetableEvent) : Bool := decide (a.when ≤ b.when)

/-- `_build_today_schedule`'s event list: per-entry events in input order,
then a stable sort by timestamp (Python `list.sort` = stable merge sort). -/
def buildSchedule (entries : List TimetableEntry) : List TimetableEvent :=
  (entries.flatMap eventsOfEntry).mergeSort leWhen

/-- `_schedule_next`: pop every event whose timestamp is `≤ now`, then arm
a one-shot timer for the new head (delay in whole milliseconds, clamped at
0); arm nothing if no event remains.  Returns (remaining events, armed
event with its delay). -/
def scheduleNext (events : List TimetableEvent) (now : ℤ) :
    List TimetableEvent × Option (TimetableEvent × ℤ) :=
  let rest := events.dropWhile fun e => decide (e.when ≤ now)
  match rest with
  | [] => ([], none)
  | ev :: _ => (rest, some (ev, max 0 (pyTruncMs (ev.when - now))))

/-! ## Notification manager: state and event handling -/

/-- One snooze `QTimer` ever created; `active` is false once stopped or
fired (single-shot). -/
structure SnoozeHandle where
  active : Bool
  delay_ms : ℕ
deriving DecidableEq, Repr

/-- A visible notification (`_notify` surface), with the message text
abstracted to its structured content. -/
inductive Notice
  | slotStarting (aid : ℕ) (notes : String)
  | slotEnded (aid : ℕ)
  | snoozed
deriving DecidableEq, Repr

/-- `NotificationManager` state.  `dnd` is the persisted
`notifications.dnd` setting; `clk` counts the timer service's
time-provider calls (values come from a stream `tp : ℕ → ℤ`); `armed` is
the pending one-shot event timer (event, delay ms); `snooze_timers` logs
every snooze timer ever created (the source keeps only the latest, earlier
ones having been stopped). -/
structure Mgr where
  events : List TimetableEvent
  last_start_notification : Option TimetableEvent
  snooze_timers : List SnoozeHandle
  armed : Option (TimetableEvent × ℤ)
  dnd : Bool
  svc : TimerSvc
  db : DB
  clk : ℕ
  notices : List Notice
deriving DecidableEq, Repr

/-- `_notify` (without `force_tray`, which only `_set_dnd` uses): DND
suppresses the visible surface entirely. -/
def Mgr.notify (m : Mgr) (n : Notice) : Mgr :=
  if m.dnd then m else { m with notices := m.notices ++ [n] }

/-- `_show_start_notification`. -/
def Mgr.showStartNotification (m : Mgr) (ev : TimetableEvent) : Mgr :=
  m.notify (.slotStarting ev.activity_id ev.notes)

/-- `_handle_slot_start`: remember the event for snooze, show the
notification, then auto-start the timer if idle (exceptions swallowed). -/
def Mgr.handleSlotStart (tp : ℕ → ℤ) (m : Mgr) (ev : TimetableEvent) : Mgr :=
  let m1 := { m with last_start_notification := some ev }
  let m2 := m1.showStartNotification ev
  if m2.svc.state = .idle then
    match m2.svc.start m2.db (tp m2.clk) ev.activity_id with
    | .ok r => { m2 with svc := r.svc, db := r.db, clk := m2.clk + 1 }
    | .error _ => { m2 with clk := m2.clk + 1 }
  else m2

/-- `_handle_slot_end` before the chaining check: stop the timer if it is
tracking this slot's activity, then show the end notification. -/
def Mgr.slotEndCore (tp : ℕ → ℤ) (m : Mgr) (ev : TimetableEvent) : Mgr :=
  let m1 :=
    if (m.svc.state = .running ∨ m.svc.state = .paused) ∧
        m.svc.activity_id = some ev.activity_id then
      let r := TimerSvc.stop m.svc m.db (tp m.clk)
      { m with svc := r.svc, db := r.db, clk := m.clk + 1 }
    else m
  m1.notify (.slotEnded ev.activity_id)

/-- `_handle_slot_end`: end-processing, then if the head event is a start
within strictly less than one second, pop and dispatch it immediately. -/
def Mgr.handleSlotEnd (tp : ℕ → ℤ) (m : Mgr) (ev : TimetableEvent) : Mgr :=
  let m2 := m.slotEndCore tp ev
  match m2.events with
  | nxt :: rest =>
    if nxt.kind = .evStart ∧ (nxt.when - ev.when).natAbs < 1000000 then
      Mgr.handleSlotStart tp { m2 with events := rest } nxt
    else m2
  | [] => m2

/-- `_process_next_event` followed by its trailing `_schedule_next`;
`wall` is `datetime.now()` at the re-arming step. -/
def Mgr.processNextEvent (tp : ℕ → ℤ) (wall : ℤ) (m : Mgr) : Mgr :=
  match m.events with
  | [] => m
  | ev :: rest =>
    let m1 := { m with events := rest }
    let m2 :=
      if ev.kind = .evStart then m1.handleSlotStart tp ev
      else Mgr.handleSlotEnd tp m1 ev
    let p := scheduleNext m2.events wall
    { m2 with events := p.1, armed := p.2 }

/-- Fire one dispatched turn per wall-clock instant in the list. -/
def Mgr.runTurns (tp : ℕ → ℤ) (m : Mgr) : List ℤ → Mgr
  | [] => m
  | w :: ws => Mgr.runTurns tp (m.processNextEvent tp w) ws

/-- `_build_today_schedule` (timetable present) followed by its trailing
`_schedule_next`; `wall` is `datetime.now()`. -/
def Mgr.buildTodaySchedule (m : Mgr) (entries : List TimetableEntry)
    (wall : ℤ) : Mgr :=
  let p := scheduleNext (buildSchedule entries) wall
  { m with events := p.1, armed := p.2 }

/-- Stopping the currently referenced snooze timer
(`self._snooze_timer.stop()`): only the most recently created handle can
still be live. -/
def deactivateLast (ts : List SnoozeHandle) : List SnoozeHandle :=
  match ts.getLast? with
  | none => ts
  | some h => ts.dropLast ++ [{ h with active := false }]

/-- `snooze_current`: no-op without a remembered start notification;
otherwise stop any outstanding snooze timer, create a fresh single-shot
5-minute one, and show the snooze notice. -/
def Mgr.snoozeCurrent (m : Mgr) : Mgr :=
  match m.last_start_notification with
  | none => m
  | some _ =>
    let fresh : SnoozeHandle := { active := true, delay_ms := 5 * 60 * 1000 }
    let m1 := { m with snooze_timers := deactivateLast m.snooze_timers ++ [fresh] }
    m1.notify .snoozed

/-- The snooze timer firing: the single-shot timer ends, and the lambda
replays `_show_start_notification(self._last_start_notification)` (the
value current at fire time). -/
def Mgr.fireSnooze (m : Mgr) : Mgr :=
  let m1 := { m with snooze_timers := deactivateLast m.snooze_timers }
  match m1.last_start_notification with
  | some ev => m1.showStartNotification ev
  | none => m1

/-! ## Derived notions used by the statements -/

/-- The idle/session coupling invariant of the timer service: exactly the
non-idle states carry an activity and a persisted session id, and idle
states carry a zero accumulator. -/
def TimerInv (s : TimerSvc) : Prop :=
  (s.state = .idle ↔ s.activity_id = none) ∧
  (s.state = .idle ↔ s.instance_id = none) ∧
  (s.state = .idle → s.paused_accum = 0)

/-- Run `pause p; resume r` for each cycle `(p, r)` in the list. -/
def pauseResumeStar (s : TimerSvc) : List (ℤ × ℤ) → TimerSvc
  | [] => s
  | c :: rest => pauseResumeStar ((s.pause c.1).1.resume c.2).1 rest

/-- The running intervals of a session started at `t0`, paused/resumed at
the instants in `cycles`, and stopped at `tEnd`. -/
def runningIntervals (t0 : ℤ) (cycles : List (ℤ × ℤ)) (tEnd : ℤ) :
    List (ℤ × ℤ) :=
  match cycles with
  | [] => [(t0, tEnd)]
  | c :: rest => (t0, c.1) :: runningIntervals c.2 rest tEnd

/-- Intermediate accumulator sum over pause instants. -/
def cyclesAccum (r : ℤ) : List (ℤ × ℤ) → ℤ
  | [] => 0
  | c :: rest => pyTrunc (c.1 - r) + cyclesAccum c.2 rest

/-- The last resume instant of a cycle list (the session start if none). -/
def finalResume (r : ℤ) : List (ℤ × ℤ) → ℤ
  | [] => r
  | c :: rest => finalResume c.2 rest

/-- `start(aid)` at `t0` on a fresh service and empty table, one
`pause`/`resume` per cycle, then `stop` at `tEnd`. -/
def cycleScenario (aid : ℕ) (t0 : ℤ) (cycles : List (ℤ × ℤ)) (tEnd : ℤ) :
    StopRes :=
  match TimerSvc.init.start [] t0 aid with
  | .ok r => TimerSvc.stop (pauseResumeStar r.svc cycles) r.db tEnd
  | .error _ => { svc := TimerSvc.init, db := [], ret := none, sigs := [] }

/-- A signal carries no negative duration. -/
def sigOk : Sig → Bool
  | .tick e => decide (0 ≤ e)
  | .stopped _ d => decide (0 ≤ d)
  | _ => true

/-- The time-provider values of an operation list are nondecreasing and
bounded below by `t`. -/
def timesMonoB : ℤ → List (Op × ℤ) → Bool
  | _, [] => true
  | t, p :: rest => decide (t ≤ p.2) && timesMonoB p.2 rest

/-- The provider-monotonicity invariant for the nonnegativity proof. -/
def MonoInv (t : ℤ) (s : TimerSvc) : Prop :=
  0 ≤ s.paused_accum ∧ ∀ r, s.last_resume_dt = some r → r ≤ t

/-- Everything of the manager state except the visible-notification
surface (`dnd`, `notices`): schedule, snooze bookkeeping, timer service,
database and provider-call counter. -/
def Mgr.core (m : Mgr) :
    List TimetableEvent × Option TimetableEvent × List SnoozeHandle ×
      Option (TimetableEvent × ℤ) × TimerSvc × DB × ℕ :=
  (m.events, m.last_start_notification, m.snooze_timers, m.armed,
   m.svc, m.db, m.clk)

/-! ## Concrete instances used to exercise the statements -/

/-- An End event at 10:00:00 for entry 1 / activity 2. -/
def endEventA : TimetableEvent :=
  { when := 36000000000, kind := .evEnd, entry_id := 1, activity_id := 2,
    start_time := "09:00", end_time := "10:00", notes := "" }

/-- A Start event exactly one second after `endEventA`, for activity 3. -/
def startEventExact1s : TimetableEvent :=
  { when := 36001000000, kind := .evStart, entry_id := 2, activity_id := 3,
    start_time := "10:00", end_time := "11:00", notes := "" }

/-- A Start event at the same instant as `endEventA`, for activity 3. -/
def startEventSame : TimetableEvent :=
  { when := 36000000000, kind := .evStart, entry_id := 2, activity_id := 3,
    start_time := "10:00", end_time := "11:00", notes := "" }

/-- A manager whose timer is running activity 2 (the slot that
`endEventA` ends) with one pending Start event. -/
def mgrTracking (pending : TimetableEvent) : Mgr :=
  { events := [pending], last_start_notification := none,
    snooze_timers := [], armed := none, dnd := false,
    svc := { state := .running, activity_id := some 2,
             instance_id := some 1, start_dt := some 32400000000,
             paused_accum := 0, last_resume_dt := some 32400000000,
             qtimer_active := true },
    db := [{ activity_id := 2, start_time := 32400, end_time := none,
             duration_seconds := none }],
    clk := 0, notices := [] }

/-! ## Helper lemmas -/

theorem setState_fst (s : TimerSvc) (ns : TState) :
    (setState s ns).1 = { s with state := ns } := by
  unfold setState
  split
  · next h => rw [h]
  · rfl

theorem stop_svc_state (s : TimerSvc) (db : DB) (n : ℤ) :
    (TimerSvc.stop s db n).svc.state = .idle := by
  unfold TimerSvc.stop
  by_cases h : s.state = .idle
  · rw [if_pos h]; exact h
  · rw [if_neg h]
    simp [setState_fst]

theorem stop_of_idle (s : TimerSvc) (db : DB) (n : ℤ) (h : s.state = .idle) :
    TimerSvc.stop s db n = { svc := s, db := db, ret := none, sigs := [] } := by
  unfold TimerSvc.stop
  rw [if_pos h]

/-! ## Claim theorems -/

/-- C6: `stop()` from idle is a no-op returning none, with no persistence
write and all timer state unchanged; consequently a second consecutive
`stop()` writes nothing and returns none, so a session is finalized
exactly once. -/
theorem stop_idle_noop_idempotent (s : TimerSvc) (db : DB) (n1 n2 : ℤ) :
    (s.state = .idle →
      TimerSvc.stop s db n1 = { svc := s, db := db, ret := none, sigs := [] }) ∧
    TimerSvc.stop (TimerSvc.stop s db n1).svc (TimerSvc.stop s db n1).db n2 =
      { svc := (TimerSvc.stop s db n1).svc, db := (TimerSvc.stop s db n1).db,
        ret := none, sigs := [] } :=
  ⟨stop_of_idle s db n1, stop_of_idle _ _ n2 (stop_svc_state s db n1)⟩

/-- Witness for C6 at a concrete idle state. -/
theorem stop_idle_noop_idempotent_witness :
    TimerSvc.init.state = .idle ∧
    TimerSvc.stop TimerSvc.init [] 3 =
      { svc := TimerSvc.init, db := [], ret := none, sigs := [] } :=
  ⟨rfl, (stop_idle_noop_idempotent TimerSvc.init [] 3 7).1 rfl⟩

/-- C4: `start(activity_id)` raises `AlreadyActiveError` exactly when the
state is running or paused; from idle it records the session start,
resets the accumulator to 0, appends an open-ended session row, moves to
running, returns the new row id, and emits the state change, the started
signal and a zero-elapsed tick. -/
theorem start_spec (s : TimerSvc) (db : DB) (now : ℤ) (aid : ℕ) :
    (s.start db now aid = .error .alreadyActive ↔
      (s.state = .running ∨ s.state = .paused)) ∧
    (s.state = .idle →
      s.start db now aid = .ok
        { svc := { s with state := .running, activity_id := some aid,
                           instance_id := some (db.length + 1),
                           start_dt := some now, last_resume_dt := some now,
                           paused_accum := 0, qtimer_active := true },
          db := db ++ [{ activity_id := aid, start_time := isoSecond now,
                         end_time := none, duration_seconds := none }],
          ret := db.length + 1,
          sigs := [.stateChanged .running, .started (db.length + 1),
                   .tick 0] }) := by
  constructor
  · constructor
    · intro h
      by_contra hc
      unfold TimerSvc.start at h
      rw [if_neg hc] at h
      exact absurd h (by simp)
    · intro h
      unfold TimerSvc.start
      rw [if_pos h]
  · intro h
    have hc : ¬(s.state = .running ∨ s.state = .paused) := by
      rw [h]; rintro (hh | hh) <;> exact absurd hh (by simp)
    unfold TimerSvc.start
    rw [if_neg hc]
    simp [setState, h]

/-- Witness for C4 at a fresh idle service. -/
theorem start_spec_witness :
    (TimerSvc.init.start [] 5 7 = .error .alreadyActive ↔
      (TimerSvc.init.state = .running ∨ TimerSvc.init.state = .paused)) ∧
    TimerSvc.init.state = .idle ∧
    TimerSvc.init.start [] 5 7 = .ok
      { svc := { TimerSvc.init with state := .running,
                                    activity_id := some 7,
                                    instance_id := some 1, start_dt := some 5,
                                    last_resume_dt := some 5,
                                    paused_accum := 0, qtimer_active := true },
        db := [{ activity_id := 7, start_time := isoSecond 5,
                 end_time := none, duration_seconds := none }],
        ret := 1,
        sigs := [.stateChanged .running, .started 1, .tick 0] } :=
  ⟨(start_spec TimerSvc.init [] 5 7).1, rfl,
    (start_spec TimerSvc.init [] 5 7).2 rfl⟩

theorem applyOp_timerInv (sys : Sys) (op : Op) (now : ℤ)
    (h : TimerInv sys.svc) : TimerInv (applyOp sys op now).svc := by
  obtain ⟨h1, h2, h3⟩ := h
  cases op with
  | start aid =>
    cases hstate : sys.svc.state with
    | idle => simp [applyOp, TimerSvc.start, hstate, setState, TimerInv]
    | running =>
      have hfix : applyOp sys (Op.start aid) now = sys := by
        simp [applyOp, TimerSvc.start, hstate]
      rw [hfix]
      exact ⟨h1, h2, h3⟩
    | paused =>
      have hfix : applyOp sys (Op.start aid) now = sys := by
        simp [applyOp, TimerSvc.start, hstate]
      rw [hfix]
      exact ⟨h1, h2, h3⟩
  | pause =>
    cases hstate : sys.svc.state with
    | running =>
      cases hlr : sys.svc.last_resume_dt <;>
        · simp only [applyOp, TimerSvc.pause, hstate, hlr]
          simp only [TimerInv, setState]
          rw [hstate] at h1 h2
          simp_all
    | idle =>
      simp only [applyOp, TimerSvc.pause, hstate]
      simp only [TimerInv]
      rw [hstate] at h1 h2 h3
      simp_all
    | paused =>
      simp only [applyOp, TimerSvc.pause, hstate]
      simp only [TimerInv]
      rw [hstate] at h1 h2 h3
      simp_all
  | resume =>
    cases hstate : sys.svc.state with
    | paused =>
      simp only [applyOp, TimerSvc.resume, hstate]
      simp only [TimerInv, setState]
      rw [hstate] at h1 h2
      simp_all
    | idle =>
      simp only [applyOp, TimerSvc.resume, hstate]
      simp only [TimerInv]
      rw [hstate] at h1 h2 h3
      simp_all
    | running =>
      simp only [applyOp, TimerSvc.resume, hstate]
      simp only [TimerInv]
      rw [hstate] at h1 h2 h3
      simp_all
  | stop =>
    cases hstate : sys.svc.state with
    | idle =>
      simp only [applyOp, TimerSvc.stop, hstate]
      simp only [TimerInv]
      rw [hstate] at h1 h2 h3
      simp_all
    | running =>
      cases hlr : sys.svc.last_resume_dt <;>
        simp [applyOp, TimerSvc.stop, hstate, hlr, setState, TimerInv]
    | paused =>
      simp [applyOp, TimerSvc.stop, hstate, setState, TimerInv]
  | tick =>
    simp only [applyOp]
    exact ⟨h1, h2, h3⟩

theorem runOps_timerInv (ops : List (Op × ℤ)) :
    ∀ sys : Sys, TimerInv sys.svc → TimerInv (runOps sys ops).svc := by
  induction ops with
  | nil => intro sys h; exact h
  | cons p rest ih =>
    intro sys h
    exact ih _ (applyOp_timerInv sys p.1 p.2 h)

/-- C10: in every state reachable from the initial one by any sequence of
operations, the state is idle iff there is no current activity, iff there
is no live session id, and an idle state has a zero accumulator. -/
theorem reachable_idle_session_invariant (ops : List (Op × ℤ)) :
    TimerInv (runOps Sys.init ops).svc :=
  runOps_timerInv ops Sys.init
    ⟨by simp [Sys.init, TimerSvc.init], by simp [Sys.init, TimerSvc.init],
     fun _ => by simp [Sys.init, TimerSvc.init]⟩

theorem pauseResume_step (s : TimerSvc) (r p rr : ℤ) (hs : s.state = .running)
    (hlr : s.last_resume_dt = some r) :
    ((s.pause p).1.resume rr).1 =
      { s with state := .running,
               paused_accum := s.paused_accum + pyTrunc (p - r),
               last_resume_dt := some rr, qtimer_active := true } := by
  simp [TimerSvc.pause, TimerSvc.resume, hs, hlr, setState]

theorem pauseResumeStar_fields :
    ∀ (cycles : List (ℤ × ℤ)) (s : TimerSvc) (r : ℤ),
    s.state = .running → s.last_resume_dt = some r →
    (pauseResumeStar s cycles).state = .running ∧
    (pauseResumeStar s cycles).instance_id = s.instance_id ∧
    (pauseResumeStar s cycles).last_resume_dt =
      some (finalResume r cycles) ∧
    (pauseResumeStar s cycles).paused_accum =
      s.paused_accum + cyclesAccum r cycles := by
  intro cycles
  induction cycles with
  | nil =>
    intro s r hs hlr
    simp [pauseResumeStar, cyclesAccum, finalResume, hs, hlr]
  | cons c rest ih =>
    intro s r hs hlr
    have hstep := pauseResume_step s r c.1 c.2 hs hlr
    simp only [pauseResumeStar]
    rw [hstep]
    obtain ⟨ha, hb, hc, hd⟩ :=
      ih { s with state := .running,
                  paused_accum := s.paused_accum + pyTrunc (c.1 - r),
                  last_resume_dt := some c.2, qtimer_active := true } c.2 rfl rfl
    refine ⟨ha, hb, ?_, ?_⟩
    · rw [hc]; simp [finalResume]
    · rw [hd]; simp [cyclesAccum, add_assoc]

theorem runningIntervals_sum :
    ∀ (cycles : List (ℤ × ℤ)) (t0 tEnd : ℤ),
    ((runningIntervals t0 cycles tEnd).map fun iv => pyTrunc (iv.2 - iv.1)).sum
      = cyclesAccum t0 cycles + pyTrunc (tEnd - finalResume t0 cycles) := by
  intro cycles
  induction cycles with
  | nil => intro t0 tEnd; simp [runningIntervals, cyclesAccum, finalResume]
  | cons c rest ih =>
    intro t0 tEnd
    simp [runningIntervals, cyclesAccum, finalResume, ih, add_assoc]

/-- C1: in `start; (pause; resume)*; stop`, the duration persisted and
emitted at `stop()` is the sum of the truncated whole-second lengths of
the individual running intervals — each folded into the accumulator
exactly once, at the pause or stop ending it — independent of the number
of pause/resume cycles and of the paused gap lengths. -/
theorem pause_resume_no_drift (aid : ℕ) (t0 tEnd : ℤ)
    (cycles : List (ℤ × ℤ)) :
    (cycleScenario aid t0 cycles tEnd).db =
      [{ activity_id := aid, start_time := isoSecond t0,
         end_time := some (isoSecond tEnd),
         duration_seconds :=
           some (((runningIntervals t0 cycles tEnd).map
             fun iv => pyTrunc (iv.2 - iv.1)).sum) }] ∧
    (cycleScenario aid t0 cycles tEnd).ret = some 1 ∧
    Sig.stopped 1 (((runningIntervals t0 cycles tEnd).map
        fun iv => pyTrunc (iv.2 - iv.1)).sum) ∈
      (cycleScenario aid t0 cycles tEnd).sigs := by
  have hstart : TimerSvc.init.start [] t0 aid = .ok
      { svc := { state := .running, activity_id := some aid,
                 instance_id := some 1, start_dt := some t0,
                 paused_accum := 0, last_resume_dt := some t0,
                 qtimer_active := true },
        db := [{ activity_id := aid, start_time := isoSecond t0,
                 end_time := none, duration_seconds := none }],
        ret := 1,
        sigs := [.stateChanged .running, .started 1, .tick 0] } := by
    rw [(start_spec TimerSvc.init [] t0 aid).2 rfl]
    rfl
  obtain ⟨ha, hb, hc, hd⟩ :=
    pauseResumeStar_fields cycles
      { state := .running, activity_id := some aid, instance_id := some 1,
        start_dt := some t0, paused_accum := 0, last_resume_dt := some t0,
        qtimer_active := true } t0 rfl rfl
  have hsum := runningIntervals_sum cycles t0 tEnd
  simp only [cycleScenario, hstart]
  simp [TimerSvc.stop, ha, hb, hc, hd, setState, updateInstanceEnd, hsum,
    List.enum, add_assoc]

theorem pyTrunc_nonneg {d : ℤ} (h : 0 ≤ d) : 0 ≤ pyTrunc d :=
  Int.tdiv_nonneg h (by norm_num [usPerSec])

theorem sigOk_of_mem_append {g : Sig} {old new : List Sig}
    (hg : g ∈ old ++ new) (hnew : ∀ x ∈ new, sigOk x = true) :
    g ∈ old ∨ sigOk g = true := by
  rcases List.mem_append.mp hg with h | h
  · exact Or.inl h
  · exact Or.inr (hnew g h)

theorem applyOp_monoInv {t now : ℤ} (sys : Sys) (op : Op)
    (hi : MonoInv t sys.svc) (ht : t ≤ now) :
    MonoInv now (applyOp sys op now).svc ∧
    ∀ g ∈ (applyOp sys op now).out, g ∈ sys.out ∨ sigOk g = true := by
  obtain ⟨hacc, hlr⟩ := hi
  have hmono : ∀ r, sys.svc.last_resume_dt = some r → r ≤ now :=
    fun r hr => le_trans (hlr r hr) ht
  have htr : ∀ r, sys.svc.last_resume_dt = some r → 0 ≤ pyTrunc (now - r) :=
    fun r hr => pyTrunc_nonneg (by have := hmono r hr; omega)
  cases op with
  | start aid =>
    cases hstate : sys.svc.state with
    | idle =>
      refine ⟨⟨?_, ?_⟩, ?_⟩
      · simp [applyOp, TimerSvc.start, hstate, setState]
      · intro r hr
        simp [applyOp, TimerSvc.start, hstate, setState] at hr
        omega
      · have hout : (applyOp sys (Op.start aid) now).out =
            sys.out ++ [Sig.stateChanged .running,
              Sig.started (sys.db.length + 1), Sig.tick 0] := by
          simp [applyOp, TimerSvc.start, hstate, setState]
        intro g hg
        rw [hout] at hg
        refine sigOk_of_mem_append hg ?_
        intro x hx
        simp only [List.mem_cons, List.not_mem_nil, or_false] at hx
        rcases hx with rfl | rfl | rfl <;> simp [sigOk]
    | running =>
      have hfix : applyOp sys (Op.start aid) now = sys := by
        simp [applyOp, TimerSvc.start, hstate]
      rw [hfix]
      exact ⟨⟨hacc, hmono⟩, fun g hg => Or.inl hg⟩
    | paused =>
      have hfix : applyOp sys (Op.start aid) now = sys := by
        simp [applyOp, TimerSvc.start, hstate]
      rw [hfix]
      exact ⟨⟨hacc, hmono⟩, fun g hg => Or.inl hg⟩
  | pause =>
    cases hstate : sys.svc.state with
    | running =>
      cases hlr' : sys.svc.last_resume_dt with
      | none =>
        refine ⟨⟨?_, ?_⟩, ?_⟩
        · simpa [applyOp, TimerSvc.pause, hstate, hlr', setState] using hacc
        · intro r hr
          simp [applyOp, TimerSvc.pause, hstate, hlr', setState] at hr
        · have hout : (applyOp sys Op.pause now).out =
              sys.out ++ [Sig.stateChanged .paused, Sig.sigPaused] := by
            simp [applyOp, TimerSvc.pause, hstate, hlr', setState]
          intro g hg
          rw [hout] at hg
          refine sigOk_of_mem_append hg ?_
          intro x hx
          simp only [List.mem_cons, List.not_mem_nil, or_false] at hx
          rcases hx with rfl | rfl <;> simp [sigOk]
      | some r =>
        refine ⟨⟨?_, ?_⟩, ?_⟩
        · simp [applyOp, TimerSvc.pause, hstate, hlr', setState]
          have := htr r hlr'
          omega
        · intro r' hr'
          simp [applyOp, TimerSvc.pause, hstate, hlr', setState] at hr'
          subst hr'
          exact hmono r hlr'
        · have hout : (applyOp sys Op.pause now).out =
              sys.out ++ [Sig.stateChanged .paused, Sig.sigPaused] := by
            simp [applyOp, TimerSvc.pause, hstate, hlr', setState]
          intro g hg
          rw [hout] at hg
          refine sigOk_of_mem_append hg ?_
          intro x hx
          simp only [List.mem_cons, List.not_mem_nil, or_false] at hx
          rcases hx with rfl | rfl <;> simp [sigOk]
    | idle =>
      have hfix : applyOp sys Op.pause now = sys := by
        simp [applyOp, TimerSvc.pause, hstate]
      rw [hfix]
      exact ⟨⟨hacc, hmono⟩, fun g hg => Or.inl hg⟩
    | paused =>
      have hfix : applyOp sys Op.pause now = sys := by
        simp [applyOp, TimerSvc.pause, hstate]
      rw [hfix]
      exact ⟨⟨hacc, hmono⟩, fun g hg => Or.inl hg⟩
  | resume =>
    cases hstate : sys.svc.state with
    | paused =>
      refine ⟨⟨?_, ?_⟩, ?_⟩
      · simpa [applyOp, TimerSvc.resume, hstate, setState] using hacc
      · intro r hr
        simp [applyOp, TimerSvc.resume, hstate, setState] at hr
        omega
      · have hout : (applyOp sys Op.resume now).out =
            sys.out ++ [Sig.stateChanged .running, Sig.sigResumed] := by
          simp [applyOp, TimerSvc.resume, hstate, setState]
        intro g hg
        rw [hout] at hg
        refine sigOk_of_mem_append hg ?_
        intro x hx
        simp only [List.mem_cons, List.not_mem_nil, or_false] at hx
        rcases hx with rfl | rfl <;> simp [sigOk]
    | idle =>
      have hfix : applyOp sys Op.resume now = sys := by
        simp [applyOp, TimerSvc.resume, hstate]
      rw [hfix]
      exact ⟨⟨hacc, hmono⟩, fun g hg => Or.inl hg⟩
    | running =>
      have hfix : applyOp sys Op.resume now = sys := by
        simp [applyOp, TimerSvc.resume, hstate]
      rw [hfix]
      exact ⟨⟨hacc, hmono⟩, fun g hg => Or.inl hg⟩
  | stop =>
    cases hstate : sys.svc.state with
    | idle =>
      have hfix : applyOp sys Op.stop now = sys := by
        simp [applyOp, TimerSvc.stop, hstate]
      rw [hfix]
      exact ⟨⟨hacc, hmono⟩, fun g hg => Or.inl hg⟩
    | running =>
      have hdur : 0 ≤ (TimerSvc.stop sys.svc sys.db now).svc.paused_accum ∧
          ∀ x ∈ (TimerSvc.stop sys.svc sys.db now).sigs, sigOk x = true := by
        cases hlr' : sys.svc.last_resume_dt with
        | none =>
          cases hins : sys.svc.instance_id with
          | none =>
            refine ⟨by simp [TimerSvc.stop, hstate, hlr', hins, setState], ?_⟩
            intro x hx
            simp [TimerSvc.stop, hstate, hlr', hins, setState] at hx
            subst hx; simp [sigOk]
          | some i =>
            refine ⟨by simp [TimerSvc.stop, hstate, hlr', hins, setState], ?_⟩
            intro x hx
            simp [TimerSvc.stop, hstate, hlr', hins, setState] at hx
            rcases hx with rfl | rfl <;> simp [sigOk]
            omega
        | some r =>
          have h0 := htr r hlr'
          cases hins : sys.svc.instance_id with
          | none =>
            refine ⟨by simp [TimerSvc.stop, hstate, hlr', hins, setState], ?_⟩
            intro x hx
            simp [TimerSvc.stop, hstate, hlr', hins, setState] at hx
            subst hx; simp [sigOk]
          | some i =>
            refine ⟨by simp [TimerSvc.stop, hstate, hlr', hins, setState], ?_⟩
            intro x hx
            simp [TimerSvc.stop, hstate, hlr', hins, setState] at hx
            rcases hx with rfl | rfl <;> simp [sigOk]
            omega
      refine ⟨⟨?_, ?_⟩, ?_⟩
      · exact hdur.1
      · intro r hr
        have : (TimerSvc.stop sys.svc sys.db now).svc.last_resume_dt = none := by
          cases hlr' : sys.svc.last_resume_dt <;>
            simp [TimerSvc.stop, hstate, hlr', setState]
        rw [show (applyOp sys Op.stop now).svc = (TimerSvc.stop sys.svc sys.db now).svc from rfl] at hr
        rw [this] at hr
        exact absurd hr (by simp)
      · intro g hg
        exact sigOk_of_mem_append hg hdur.2
    | paused =>
      have hdur : 0 ≤ (TimerSvc.stop sys.svc sys.db now).svc.paused_accum ∧
          ∀ x ∈ (TimerSvc.stop sys.svc sys.db now).sigs, sigOk x = true := by
        cases hins : sys.svc.instance_id with
        | none =>
          refine ⟨by simp [TimerSvc.stop, hstate, hins, setState], ?_⟩
          intro x hx
          simp [TimerSvc.stop, hstate, hins, setState] at hx
          subst hx; simp [sigOk]
        | some i =>
          refine ⟨by simp [TimerSvc.stop, hstate, hins, setState], ?_⟩
          intro x hx
          simp [TimerSvc.stop, hstate, hins, setState] at hx
          rcases hx with rfl | rfl <;> simp [sigOk]
          omega
      refine ⟨⟨?_, ?_⟩, ?_⟩
      · exact hdur.1
      · intro r hr
        have : (TimerSvc.stop sys.svc sys.db now).svc.last_resume_dt = none := by
          simp [TimerSvc.stop, hstate, setState]
        rw [show (applyOp sys Op.stop now).svc = (TimerSvc.stop sys.svc sys.db now).svc from rfl] at hr
        rw [this] at hr
        exact absurd hr (by simp)
      · intro g hg
        exact sigOk_of_mem_append hg hdur.2
  | tick =>
    refine ⟨⟨hacc, hmono⟩, ?_⟩
    intro g hg
    simp only [applyOp] at hg
    refine sigOk_of_mem_append hg ?_
    intro x hx
    unfold TimerSvc.onTick at hx
    by_cases hs : sys.svc.state ≠ .running
    · simp [hs] at hx
    · rw [if_neg (by simpa using hs)] at hx
      cases hlr' : sys.svc.last_resume_dt with
      | none => simp [hlr'] at hx
      | some r =>
        rw [hlr'] at hx
        simp only [List.mem_singleton] at hx
        subst hx
        have := htr r hlr'
        simp [sigOk]
        omega

theorem timesMonoB_append (t : ℤ) (l1 l2 : List (Op × ℤ))
    (h : timesMonoB t (l1 ++ l2) = true) : timesMonoB t l1 = true := by
  induction l1 generalizing t with
  | nil => rfl
  | cons p rest ih =>
    simp only [List.cons_append, timesMonoB, Bool.and_eq_true] at h ⊢
    exact ⟨h.1, ih p.2 h.2⟩

theorem runOps_monoInv (ops : List (Op × ℤ)) :
    ∀ (t : ℤ) (sys : Sys), MonoInv t sys.svc →
    (∀ g ∈ sys.out, sigOk g = true) → timesMonoB t ops = true →
    (∀ g ∈ (runOps sys ops).out, sigOk g = true) ∧
    0 ≤ (runOps sys ops).svc.paused_accum := by
  induction ops with
  | nil => intro t sys hi hout _; exact ⟨hout, hi.1⟩
  | cons p rest ih =>
    intro t sys hi hout hm
    simp only [timesMonoB, Bool.and_eq_true, decide_eq_true_eq] at hm
    obtain ⟨hstep, houts⟩ := applyOp_monoInv sys p.1 hi hm.1
    simp only [runOps]
    refine ih p.2 _ hstep ?_ hm.2
    intro g hg
    rcases houts g hg with h | h
    · exact hout g h
    · exact h

/-- C5 (amended): provided the injectable time provider is monotone over
the run (each call returns a value no smaller than the previous one),
every duration the timer computes — the accumulated seconds after any
prefix of operations, the final duration emitted at stop, and the elapsed
value emitted on each tick — is a non-negative whole number of seconds
obtained by truncating the wall-clock delta. -/
theorem durations_nonneg (ops : List (Op × ℤ)) (t0 : ℤ)
    (h : timesMonoB t0 ops = true) :
    (∀ g ∈ (runOps Sys.init ops).out, sigOk g = true) ∧
    ∀ l1 l2, ops = l1 ++ l2 →
      0 ≤ (runOps Sys.init l1).svc.paused_accum := by
  have hinit : MonoInv t0 Sys.init.svc :=
    ⟨by simp [Sys.init, TimerSvc.init],
     fun r hr => by simp [Sys.init, TimerSvc.init] at hr⟩
  constructor
  · exact (runOps_monoInv ops t0 Sys.init hinit (by simp [Sys.init]) h).1
  · intro l1 l2 hsplit
    subst hsplit
    exact (runOps_monoInv l1 t0 Sys.init hinit (by simp [Sys.init])
      (timesMonoB_append t0 l1 l2 h)).2

/-- Witness for the amended C5 on a concrete monotone run with a
fractional-second pause delta. -/
theorem durations_nonneg_witness :
    timesMonoB 0 [(Op.start 3, 0), (Op.tick, 1500000), (Op.pause, 2500000),
      (Op.resume, 9000000), (Op.stop, 12000000)] = true ∧
    ((∀ g ∈ (runOps Sys.init [(Op.start 3, 0), (Op.tick, 1500000),
        (Op.pause, 2500000), (Op.resume, 9000000),
        (Op.stop, 12000000)]).out, sigOk g = true) ∧
     ∀ l1 l2, [(Op.start 3, 0), (Op.tick, 1500000), (Op.pause, 2500000),
        (Op.resume, 9000000), (Op.stop, 12000000)] = l1 ++ l2 →
        0 ≤ (runOps Sys.init l1).svc.paused_accum) :=
  ⟨by decide,
   durations_nonneg [(Op.start 3, 0), (Op.tick, 1500000),
     (Op.pause, 2500000), (Op.resume, 9000000), (Op.stop, 12000000)] 0
     (by decide)⟩

/-- Counterexample to C5 as stated: with a time provider that goes
backwards (2 seconds back between start and stop), the code adds the
negative truncated delta unguarded, and the persisted and emitted
duration is -2 seconds. -/
theorem durations_nonneg_cex :
    (runOps Sys.init [(Op.start 1, 0), (Op.stop, -2000000)]).db =
      [{ activity_id := 1, start_time := 0, end_time := some (-2),
         duration_seconds := some (-2) }] ∧
    Sig.stopped 1 (-2) ∈
      (runOps Sys.init [(Op.start 1, 0), (Op.stop, -2000000)]).out := by
  decide

theorem leWhen_trans (a b c : TimetableEvent) :
    leWhen a b → leWhen b c → leWhen a c := by
  simp only [leWhen, decide_eq_true_eq]
  omega

theorem leWhen_total (a b : TimetableEvent) : leWhen a b || leWhen b a := by
  simp only [leWhen, Bool.or_eq_true, decide_eq_true_eq]
  omega

theorem eventsOfEntry_kinds (e : TimetableEntry) :
    (eventsOfEntry e).map (fun ev => ev.kind) =
      (if validEntry e then [EventKind.evStart, EventKind.evEnd] else []) := by
  cases hst : parseHHMM e.start_time with
  | none => simp [eventsOfEntry, validEntry, hst]
  | some st =>
    cases het : parseHHMM e.end_time with
    | none => simp [eventsOfEntry, validEntry, hst, het]
    | some et =>
      by_cases hcmp : ((et.1 * 3600 + et.2 * 60) * usPerSec : ℤ) ≤
          (st.1 * 3600 + st.2 * 60) * usPerSec
      · have hlt : ¬(((st.1 * 3600 + st.2 * 60) * usPerSec : ℤ) <
            (et.1 * 3600 + et.2 * 60) * usPerSec) := by omega
        simp [eventsOfEntry, validEntry, hst, het, hcmp, hlt]
      · have hlt : (((st.1 * 3600 + st.2 * 60) * usPerSec : ℤ) <
            (et.1 * 3600 + et.2 * 60) * usPerSec) := by omega
        simp [eventsOfEntry, validEntry, hst, het, hcmp, hlt]

theorem eventsOfEntry_length (e : TimetableEntry) :
    (eventsOfEntry e).length = if validEntry e then 2 else 0 := by
  have h := eventsOfEntry_kinds e
  have : ((eventsOfEntry e).map (fun ev => ev.kind)).length =
      (eventsOfEntry e).length := List.length_map _ _
  rw [h] at this
  split at this <;> split <;> simp_all

theorem flatMap_events_length (entries : List TimetableEntry) :
    (entries.flatMap eventsOfEntry).length =
      2 * entries.countP validEntry := by
  induction entries with
  | nil => rfl
  | cons e rest ih =>
    rw [List.flatMap_cons, List.length_append, ih, List.countP_cons,
      eventsOfEntry_length]
    by_cases hv : validEntry e = true
    · simp [hv]
      omega
    · simp [hv]

/-- C3: the schedule build emits exactly two events per valid slot (one
Start then one End), silently skips unparseable and end-not-after-start
slots while continuing with the rest, and outputs `2 × (valid slots)`
events sorted non-decreasing by timestamp, ties stably broken by the
original generation order (the sort agrees with a lexicographic sort on
(timestamp, original position)). -/
theorem build_schedule_spec (entries : List TimetableEntry) :
    (buildSchedule entries).length = 2 * entries.countP validEntry ∧
    (buildSchedule entries).Pairwise (fun a b => a.when ≤ b.when) ∧
    buildSchedule entries =
      (List.mergeSort ((entries.flatMap eventsOfEntry).enum)
        (List.enumLE leWhen)).map (fun p => p.2) ∧
    ∀ e : TimetableEntry, (eventsOfEntry e).map (fun ev => ev.kind) =
      (if validEntry e then [EventKind.evStart, EventKind.evEnd] else []) := by
  refine ⟨?_, ?_, ?_, eventsOfEntry_kinds⟩
  · rw [buildSchedule, List.length_mergeSort, flatMap_events_length]
  · have h := List.sorted_mergeSort leWhen_trans leWhen_total
      (entries.flatMap eventsOfEntry)
    exact h.imp (by simp [leWhen])
  · exact (List.mergeSort_enum).symm

theorem dropWhile_past_eq_filter (now : ℤ) :
    ∀ evs : List TimetableEvent,
    evs.Pairwise (fun a b => a.when ≤ b.when) →
    evs.dropWhile (fun e => decide (e.when ≤ now)) =
      evs.filter (fun e => decide (now < e.when)) := by
  intro evs
  induction evs with
  | nil => intro _; rfl
  | cons a t ih =>
    intro h
    rcases List.pairwise_cons.mp h with ⟨ha, ht⟩
    by_cases hle : a.when ≤ now
    · rw [List.dropWhile_cons_of_pos (by simpa using hle),
        List.filter_cons_of_neg (by simpa using hle)]
      exact ih ht
    · rw [List.dropWhile_cons_of_neg (by simpa using hle),
        List.filter_cons_of_pos (by simp; omega)]
      have : ∀ b ∈ t, decide (now < b.when) = true := by
        intro b hb
        have := ha b hb
        simp
        omega
      rw [List.filter_eq_self.mpr this]

/-- C8: whenever the driver re-arms (`_schedule_next` on a sorted list,
after a rebuild or a dispatch), every event with timestamp `≤ now` is
dropped without firing, the armed event is exactly the earliest remaining
future event (the head, minimal in the remainder) with its clamped
millisecond delay, nothing is armed when no future event remains, and a
processing turn on an empty event list does nothing. -/
theorem schedule_next_spec (evs : List TimetableEvent) (now : ℤ)
    (hs : evs.Pairwise (fun a b => a.when ≤ b.when)) :
    (scheduleNext evs now).1 = evs.filter (fun e => decide (now < e.when)) ∧
    ((scheduleNext evs now).1 = [] → (scheduleNext evs now).2 = none) ∧
    (∀ ev rest, (scheduleNext evs now).1 = ev :: rest →
      (scheduleNext evs now).2 =
        some (ev, max 0 (pyTruncMs (ev.when - now))) ∧
      ∀ e ∈ (scheduleNext evs now).1, ev.when ≤ e.when) ∧
    (∀ (tp : ℕ → ℤ) (wall : ℤ) (m : Mgr), m.events = [] →
      m.processNextEvent tp wall = m) := by
  have hdw := dropWhile_past_eq_filter now evs hs
  have hsf : (evs.filter (fun e => decide (now < e.when))).Pairwise
      (fun a b => a.when ≤ b.when) := hs.filter _
  refine ⟨?_, ?_, ?_, ?_⟩
  · unfold scheduleNext
    rw [hdw]
    cases hr : evs.filter (fun e => decide (now < e.when)) <;> simp
  · unfold scheduleNext
    rw [hdw]
    cases hr : evs.filter (fun e => decide (now < e.when)) <;> simp
  · intro ev rest hcons
    unfold scheduleNext at hcons ⊢
    rw [hdw] at hcons ⊢
    cases hr : evs.filter (fun e => decide (now < e.when)) with
    | nil => rw [hr] at hcons; simp at hcons
    | cons ev' rest' =>
      rw [hr] at hcons
      simp only at hcons
      obtain ⟨rfl, rfl⟩ : ev' = ev ∧ rest' = rest := by
        constructor <;> simp_all
      refine ⟨by simp, ?_⟩
      intro e he
      simp only [hr] at he ⊢
      rw [hr] at hsf
      rcases List.mem_cons.mp he with rfl | hmem
      · exact le_refl _
      · exact (List.pairwise_cons.mp hsf).1 e hmem
  · intro tp wall m hm
    simp [Mgr.processNextEvent, hm]

/-- Witness for C8 on a concrete sorted two-event list with one past and
one future event. -/
theorem schedule_next_spec_witness :
    (([⟨1, .evEnd, 1, 2, "09:00", "10:00", ""⟩,
       ⟨5, .evStart, 2, 3, "10:00", "11:00", ""⟩] :
        List TimetableEvent).Pairwise (fun a b => a.when ≤ b.when)) ∧
    ((scheduleNext [⟨1, .evEnd, 1, 2, "09:00", "10:00", ""⟩,
        ⟨5, .evStart, 2, 3, "10:00", "11:00", ""⟩] 2).1 =
      ([⟨1, .evEnd, 1, 2, "09:00", "10:00", ""⟩,
        ⟨5, .evStart, 2, 3, "10:00", "11:00", ""⟩] :
          List TimetableEvent).filter (fun e => decide (2 < e.when)) ∧
    ((scheduleNext [⟨1, .evEnd, 1, 2, "09:00", "10:00", ""⟩,
        ⟨5, .evStart, 2, 3, "10:00", "11:00", ""⟩] 2).1 = [] →
      (scheduleNext [⟨1, .evEnd, 1, 2, "09:00", "10:00", ""⟩,
        ⟨5, .evStart, 2, 3, "10:00", "11:00", ""⟩] 2).2 = none) ∧
    (∀ ev rest, (scheduleNext [⟨1, .evEnd, 1, 2, "09:00", "10:00", ""⟩,
        ⟨5, .evStart, 2, 3, "10:00", "11:00", ""⟩] 2).1 = ev :: rest →
      (scheduleNext [⟨1, .evEnd, 1, 2, "09:00", "10:00", ""⟩,
        ⟨5, .evStart, 2, 3, "10:00", "11:00", ""⟩] 2).2 =
        some (ev, max 0 (pyTruncMs (ev.when - 2))) ∧
      ∀ e ∈ (scheduleNext [⟨1, .evEnd, 1, 2, "09:00", "10:00", ""⟩,
        ⟨5, .evStart, 2, 3, "10:00", "11:00", ""⟩] 2).1, ev.when ≤ e.when) ∧
    (∀ (tp : ℕ → ℤ) (wall : ℤ) (m : Mgr), m.events = [] →
      m.processNextEvent tp wall = m)) :=
  ⟨by decide,
   schedule_next_spec [⟨1, .evEnd, 1, 2, "09:00", "10:00", ""⟩,
     ⟨5, .evStart, 2, 3, "10:00", "11:00", ""⟩] 2 (by decide)⟩

theorem slotEndCore_events (tp : ℕ → ℤ) (m : Mgr) (ev : TimetableEvent) :
    (m.slotEndCore tp ev).events = m.events := by
  unfold Mgr.slotEndCore Mgr.notify
  dsimp only
  split_ifs <;> rfl

theorem slotEndCore_svc (tp : ℕ → ℤ) (m : Mgr) (ev : TimetableEvent) :
    (m.slotEndCore tp ev).svc =
      (if (m.svc.state = .running ∨ m.svc.state = .paused) ∧
          m.svc.activity_id = some ev.activity_id then
        (TimerSvc.stop m.svc m.db (tp m.clk)).svc
      else m.svc) := by
  unfold Mgr.slotEndCore Mgr.notify
  dsimp only
  split_ifs <;> rfl

theorem handleSlotStart_fields (tp : ℕ → ℤ) (m : Mgr) (ev : TimetableEvent)
    (h : m.svc.state = .idle) :
    (m.handleSlotStart tp ev).svc.state = .running ∧
    (m.handleSlotStart tp ev).svc.activity_id = some ev.activity_id ∧
    (m.handleSlotStart tp ev).events = m.events ∧
    (m.handleSlotStart tp ev).db = m.db ++
      [{ activity_id := ev.activity_id, start_time := isoSecond (tp m.clk),
         end_time := none, duration_seconds := none }] := by
  have hstart := (start_spec m.svc m.db (tp m.clk) ev.activity_id).2 h
  by_cases hd : m.dnd <;>
    simp [Mgr.handleSlotStart, Mgr.showStartNotification, Mgr.notify, hd, h,
      hstart]

/-- C2 (amended): after an End event, if the new head of the event list is
a Start event whose timestamp is STRICTLY within one second of the End
event, that Start event is popped and dispatched in the same processing
turn (End handled first, then Start, before re-arming), and when the
timer was tracking the ended slot's activity it is stopped (reaching
idle) and immediately restarted for the next slot's activity, with a new
session row created. -/
theorem chain_end_start (tp : ℕ → ℤ) (m : Mgr) (ev nxt : TimetableEvent)
    (rest : List TimetableEvent) (hev : m.events = nxt :: rest)
    (hk : nxt.kind = .evStart)
    (heps : (nxt.when - ev.when).natAbs < 1000000) :
    Mgr.handleSlotEnd tp m ev =
      Mgr.handleSlotStart tp { m.slotEndCore tp ev with events := rest } nxt ∧
    ((m.svc.state = .running ∨ m.svc.state = .paused) →
      m.svc.activity_id = some ev.activity_id →
      (m.slotEndCore tp ev).svc.state = .idle ∧
      (Mgr.handleSlotEnd tp m ev).svc.state = .running ∧
      (Mgr.handleSlotEnd tp m ev).svc.activity_id = some nxt.activity_id ∧
      (Mgr.handleSlotEnd tp m ev).events = rest ∧
      (Mgr.handleSlotEnd tp m ev).db = (m.slotEndCore tp ev).db ++
        [{ activity_id := nxt.activity_id,
           start_time := isoSecond (tp ((m.slotEndCore tp ev).clk)),
           end_time := none, duration_seconds := none }]) := by
  have hcore_ev : (m.slotEndCore tp ev).events = nxt :: rest := by
    rw [slotEndCore_events, hev]
  have h1 : Mgr.handleSlotEnd tp m ev =
      Mgr.handleSlotStart tp { m.slotEndCore tp ev with events := rest } nxt := by
    simp only [Mgr.handleSlotEnd]
    rw [hcore_ev]
    dsimp only
    rw [if_pos ⟨hk, heps⟩]
  refine ⟨h1, ?_⟩
  intro hrun hact
  have hidle : (m.slotEndCore tp ev).svc.state = .idle := by
    rw [slotEndCore_svc, if_pos ⟨hrun, hact⟩]
    exact stop_svc_state _ _ _
  obtain ⟨ha, hb, hc, hd2⟩ :=
    handleSlotStart_fields tp { m.slotEndCore tp ev with events := rest } nxt
      (by simpa using hidle)
  rw [h1]
  exact ⟨hidle, ha, hb, by simpa using hc, by simpa using hd2⟩

/-- Counterexample to C2 as stated: with the next Start event exactly one
second after the End event (so within "≤ 1 second" of it), the code's
strict `< 1` comparison fails and no chaining happens — the Start event
stays queued and the timer, having been stopped, is left idle instead of
being started for the next slot's activity. -/
theorem chain_end_start_cex :
    (Mgr.handleSlotEnd (fun _ => 36000000000)
        (mgrTracking startEventExact1s) endEventA).events =
      [startEventExact1s] ∧
    (Mgr.handleSlotEnd (fun _ => 36000000000)
        (mgrTracking startEventExact1s) endEventA).svc.state = .idle ∧
    (Mgr.handleSlotEnd (fun _ => 36000000000)
        (mgrTracking startEventExact1s) endEventA).svc.activity_id = none ∧
    (startEventExact1s.when - endEventA.when).natAbs = 1000000 ∧
    startEventExact1s.kind = .evStart ∧
    (mgrTracking startEventExact1s).svc.state = .running ∧
    (mgrTracking startEventExact1s).svc.activity_id =
      some endEventA.activity_id := by
  decide

/-- Witness for the amended C2 on a concrete back-to-back pair of slots
(Start exactly at the End instant). -/
theorem chain_end_start_witness :
    (mgrTracking startEventSame).events = startEventSame :: [] ∧
    startEventSame.kind = .evStart ∧
    (startEventSame.when - endEventA.when).natAbs < 1000000 ∧
    ((mgrTracking startEventSame).svc.state = .running ∨
      (mgrTracking startEventSame).svc.state = .paused) ∧
    (mgrTracking startEventSame).svc.activity_id =
      some endEventA.activity_id ∧
    (Mgr.handleSlotEnd (fun _ => 36000000000) (mgrTracking startEventSame)
        endEventA).svc.state = .running ∧
    (Mgr.handleSlotEnd (fun _ => 36000000000) (mgrTracking startEventSame)
        endEventA).svc.activity_id = some startEventSame.activity_id ∧
    (Mgr.handleSlotEnd (fun _ => 36000000000) (mgrTracking startEventSame)
        endEventA).events = [] :=
  have h := chain_end_start (fun _ => 36000000000) (mgrTracking startEventSame)
    endEventA startEventSame [] rfl rfl (by decide)
  have h2 := h.2 (Or.inl rfl) rfl
  ⟨rfl, rfl, by decide, Or.inl rfl, rfl, h2.2.1, h2.2.2.1, h2.2.2.2.1⟩

theorem notify_core (m : Mgr) (n : Notice) :
    (m.notify n).core = m.core := by
  unfold Mgr.notify
  split_ifs <;> rfl

theorem handleSlotStart_core (tp : ℕ → ℤ) (ev : TimetableEvent)
    (m₁ m₂ : Mgr) (h : m₁.core = m₂.core) :
    (m₁.handleSlotStart tp ev).core = (m₂.handleSlotStart tp ev).core := by
  obtain ⟨E1, L1, S1, A1, d1, sv1, db1, c1, n1⟩ := m₁
  obtain ⟨E2, L2, S2, A2, d2, sv2, db2, c2, n2⟩ := m₂
  simp only [Mgr.core, Prod.mk.injEq] at h
  obtain ⟨rfl, rfl, rfl, rfl, rfl, rfl, rfl⟩ := h
  unfold Mgr.handleSlotStart Mgr.showStartNotification Mgr.notify
  dsimp only
  by_cases hd1 : d1 <;> by_cases hd2 : d2 <;>
    simp only [hd1, hd2, if_true, if_false, Bool.false_eq_true, ite_true,
      ite_false] <;>
  · by_cases hidle : sv1.state = TState.idle
    · simp only [hidle, if_true, ite_true]
      cases hres : TimerSvc.start sv1 db1 (tp c1) ev.activity_id <;>
        simp [Mgr.core]
    · simp [hidle, Mgr.core]

theorem slotEndCore_core (tp : ℕ → ℤ) (ev : TimetableEvent)
    (m₁ m₂ : Mgr) (h : m₁.core = m₂.core) :
    (m₁.slotEndCore tp ev).core = (m₂.slotEndCore tp ev).core := by
  obtain ⟨E1, L1, S1, A1, d1, sv1, db1, c1, n1⟩ := m₁
  obtain ⟨E2, L2, S2, A2, d2, sv2, db2, c2, n2⟩ := m₂
  simp only [Mgr.core, Prod.mk.injEq] at h
  obtain ⟨rfl, rfl, rfl, rfl, rfl, rfl, rfl⟩ := h
  unfold Mgr.slotEndCore Mgr.notify
  dsimp only
  split_ifs <;> simp [Mgr.core]

theorem core_set_events (m₁ m₂ : Mgr) (h : m₁.core = m₂.core)
    (E : List TimetableEvent) :
    (Mgr.core { m₁ with events := E }) = (Mgr.core { m₂ with events := E }) := by
  obtain ⟨E1, L1, S1, A1, d1, sv1, db1, c1, n1⟩ := m₁
  obtain ⟨E2, L2, S2, A2, d2, sv2, db2, c2, n2⟩ := m₂
  simp only [Mgr.core, Prod.mk.injEq] at h ⊢
  obtain ⟨rfl, rfl, rfl, rfl, rfl, rfl, rfl⟩ := h
  simp

theorem core_set_events_armed (m₁ m₂ : Mgr) (h : m₁.core = m₂.core)
    (E : List TimetableEvent) (A : Option (TimetableEvent × ℤ)) :
    (Mgr.core { m₁ with events := E, armed := A }) =
      (Mgr.core { m₂ with events := E, armed := A }) := by
  obtain ⟨E1, L1, S1, A1, d1, sv1, db1, c1, n1⟩ := m₁
  obtain ⟨E2, L2, S2, A2, d2, sv2, db2, c2, n2⟩ := m₂
  simp only [Mgr.core, Prod.mk.injEq] at h ⊢
  obtain ⟨rfl, rfl, rfl, rfl, rfl, rfl, rfl⟩ := h
  simp

theorem handleSlotEnd_core (tp : ℕ → ℤ) (ev : TimetableEvent)
    (m₁ m₂ : Mgr) (h : m₁.core = m₂.core) :
    (Mgr.handleSlotEnd tp m₁ ev).core = (Mgr.handleSlotEnd tp m₂ ev).core := by
  have hc := slotEndCore_core tp ev m₁ m₂ h
  have hev : (m₁.slotEndCore tp ev).events = (m₂.slotEndCore tp ev).events :=
    congrArg Prod.fst hc
  unfold Mgr.handleSlotEnd
  dsimp only
  cases hE : (m₁.slotEndCore tp ev).events with
  | nil =>
    have hE2 : (m₂.slotEndCore tp ev).events = [] := by rw [← hev, hE]
    rw [hE2]
    exact hc
  | cons nxt rest =>
    have hE2 : (m₂.slotEndCore tp ev).events = nxt :: rest := by rw [← hev, hE]
    rw [hE2]
    dsimp only
    split_ifs with hcond
    · exact handleSlotStart_core tp nxt _ _ (core_set_events _ _ hc rest)
    · exact hc

theorem processNextEvent_core (tp : ℕ → ℤ) (wall : ℤ)
    (m₁ m₂ : Mgr) (h : m₁.core = m₂.core) :
    (m₁.processNextEvent tp wall).core = (m₂.processNextEvent tp wall).core := by
  have hev : m₁.events = m₂.events := congrArg Prod.fst h
  unfold Mgr.processNextEvent
  dsimp only
  cases hE : m₁.events with
  | nil =>
    have hE2 : m₂.events = [] := by rw [← hev, hE]
    rw [hE2]
    exact h
  | cons ev rest =>
    have hE2 : m₂.events = ev :: rest := by rw [← hev, hE]
    rw [hE2]
    dsimp only
    have hup : (Mgr.core { m₁ with events := rest }) =
        (Mgr.core { m₂ with events := rest }) := core_set_events _ _ h rest
    split_ifs with hk
    · have h2 := handleSlotStart_core tp ev _ _ hup
      have hev2 : (Mgr.handleSlotStart tp { m₁ with events := rest } ev).events
          = (Mgr.handleSlotStart tp { m₂ with events := rest } ev).events :=
        congrArg Prod.fst h2
      rw [hev2]
      exact core_set_events_armed _ _ h2 _ _
    · have h2 := handleSlotEnd_core tp ev _ _ hup
      have hev2 : (Mgr.handleSlotEnd tp { m₁ with events := rest } ev).events
          = (Mgr.handleSlotEnd tp { m₂ with events := rest } ev).events :=
        congrArg Prod.fst h2
      rw [hev2]
      exact core_set_events_armed _ _ h2 _ _

theorem runTurns_core (tp : ℕ → ℤ) (walls : List ℤ) :
    ∀ (m₁ m₂ : Mgr), m₁.core = m₂.core →
    (Mgr.runTurns tp m₁ walls).core = (Mgr.runTurns tp m₂ walls).core := by
  induction walls with
  | nil => intro m₁ m₂ h; exact h
  | cons w ws ih =>
    intro m₁ m₂ h
    exact ih _ _ (processNextEvent_core tp w m₁ m₂ h)

/-- C7: the DND flag never changes the schedule/timer evolution — two
runs over any number of dispatched turns that differ only in the DND flag
produce identical events, snooze state, armed timer, timer-service state,
database and clock; DND on suppresses exactly the visible notification
output, DND off produces it. -/
theorem dnd_noninterference (tp : ℕ → ℤ) (walls : List ℤ) (m : Mgr)
    (b₁ b₂ : Bool) :
    (Mgr.runTurns tp { m with dnd := b₁ } walls).core =
      (Mgr.runTurns tp { m with dnd := b₂ } walls).core ∧
    (∀ (m' : Mgr) (n : Notice), m'.dnd = true → m'.notify n = m') ∧
    (∀ (m' : Mgr) (n : Notice), m'.dnd = false →
      (m'.notify n).notices = m'.notices ++ [n]) := by
  refine ⟨runTurns_core tp walls _ _ (by simp [Mgr.core]), ?_, ?_⟩
  · intro m' n hd
    simp [Mgr.notify, hd]
  · intro m' n hd
    simp [Mgr.notify, hd]

/-- Witness for C7 on a concrete manager with one pending start event,
run with DND on versus DND off. -/
theorem dnd_noninterference_witness :
    (Mgr.runTurns (fun _ => 36000000000)
        { mgrTracking startEventSame with dnd := true } [36000000000]).core =
      (Mgr.runTurns (fun _ => 36000000000)
        { mgrTracking startEventSame with dnd := false } [36000000000]).core ∧
    ({ mgrTracking startEventSame with dnd := true }.notify
        (Notice.slotEnded 2) = { mgrTracking startEventSame with dnd := true }) ∧
    ({ mgrTracking startEventSame with dnd := false }.notify
        (Notice.slotEnded 2)).notices =
      (mgrTracking startEventSame).notices ++ [Notice.slotEnded 2] :=
  have h := dnd_noninterference (fun _ => 36000000000) [36000000000]
    (mgrTracking startEventSame) true false
  ⟨h.1, h.2.1 _ _ rfl, h.2.2 _ _ rfl⟩

theorem notify_frame (m : Mgr) (n : Notice) :
    (m.notify n).svc = m.svc ∧ (m.notify n).db = m.db ∧
    (m.notify n).clk = m.clk ∧ (m.notify n).events = m.events ∧
    (m.notify n).snooze_timers = m.snooze_timers ∧
    (m.notify n).last_start_notification = m.last_start_notification := by
  unfold Mgr.notify
  split_ifs <;> exact ⟨rfl, rfl, rfl, rfl, rfl, rfl⟩

theorem deactivateLast_inactive (ts : List SnoozeHandle)
    (hprev : ∀ h ∈ ts.dropLast, h.active = false) :
    ∀ h ∈ deactivateLast ts, h.active = false := by
  cases ts with
  | nil => intro h hh; simp [deactivateLast] at hh
  | cons a t =>
    intro h hh
    unfold deactivateLast at hh
    rw [List.getLast?_eq_getLast (a :: t) (by simp)] at hh
    dsimp only at hh
    rcases List.mem_append.mp hh with hmem | hmem
    · exact hprev h hmem
    · rw [List.mem_singleton] at hmem
      subst hmem
      rfl

theorem deactivateLast_append_one (l : List SnoozeHandle) (a : SnoozeHandle) :
    deactivateLast (l ++ [a]) = l ++ [{ a with active := false }] := by
  unfold deactivateLast
  rw [List.getLast?_concat]
  dsimp only
  rw [List.dropLast_concat]

theorem filter_active_concat (l : List SnoozeHandle) (a : SnoozeHandle)
    (hl : ∀ h ∈ l, h.active = false) (ha : a.active = true) :
    (l ++ [a]).filter (fun h => h.active) = [a] := by
  rw [List.filter_append, List.filter_eq_nil_iff.mpr (by simp_all)]
  simp [ha]

theorem fireSnooze_frame (m : Mgr) :
    (Mgr.fireSnooze m).svc = m.svc ∧ (Mgr.fireSnooze m).db = m.db ∧
    (Mgr.fireSnooze m).clk = m.clk ∧ (Mgr.fireSnooze m).events = m.events := by
  unfold Mgr.fireSnooze Mgr.showStartNotification Mgr.notify
  dsimp only
  cases m.last_start_notification with
  | none => exact ⟨rfl, rfl, rfl, rfl⟩
  | some ev => dsimp only; split_ifs <;> exact ⟨rfl, rfl, rfl, rfl⟩

theorem snoozeCurrent_eq (m : Mgr) (ev : TimetableEvent)
    (h : m.last_start_notification = some ev) :
    m.snoozeCurrent = Mgr.notify { m with
      snooze_timers := deactivateLast m.snooze_timers ++
        [{ active := true, delay_ms := 300000 }] } Notice.snoozed := by
  unfold Mgr.snoozeCurrent
  rw [h]

/-- C9: with a remembered start notification (and, as the code maintains,
no still-active snooze timer other than possibly the most recent one),
`snooze()` mutates nothing of the timer service, schedules exactly one
outstanding 300000 ms (5-minute) replay timer, a second `snooze()` before
the replay fires deactivates the first timer and creates a fresh 300000 ms
one (still exactly one outstanding), and the replay firing itself touches
neither the timer service nor the database. -/
theorem snooze_spec (m : Mgr) (ev : TimetableEvent)
    (hlast : m.last_start_notification = some ev)
    (hprev : ∀ h ∈ m.snooze_timers.dropLast, h.active = false) :
    m.snoozeCurrent.svc = m.svc ∧
    m.snoozeCurrent.db = m.db ∧
    m.snoozeCurrent.clk = m.clk ∧
    m.snoozeCurrent.events = m.events ∧
    (m.snoozeCurrent.snooze_timers.filter (fun h => h.active)).length = 1 ∧
    m.snoozeCurrent.snooze_timers.getLast? =
      some { active := true, delay_ms := 300000 } ∧
    ((m.snoozeCurrent.snoozeCurrent).snooze_timers.filter
      (fun h => h.active)).length = 1 ∧
    (m.snoozeCurrent.snoozeCurrent).snooze_timers.getLast? =
      some { active := true, delay_ms := 300000 } ∧
    (m.snoozeCurrent.snoozeCurrent).snooze_timers.dropLast.getLast? =
      some { active := false, delay_ms := 300000 } ∧
    (∀ m' : Mgr, (Mgr.fireSnooze m').svc = m'.svc ∧
      (Mgr.fireSnooze m').db = m'.db) := by
  have hsc1 := snoozeCurrent_eq m ev hlast
  have hts1 : m.snoozeCurrent.snooze_timers =
      deactivateLast m.snooze_timers ++
        [{ active := true, delay_ms := 300000 }] := by
    rw [hsc1]
    exact (notify_frame _ _).2.2.2.2.1
  have hls1 : m.snoozeCurrent.last_start_notification = some ev := by
    rw [hsc1]
    rw [(notify_frame _ _).2.2.2.2.2]
    exact hlast
  have hinact : ∀ h ∈ deactivateLast m.snooze_timers, h.active = false :=
    deactivateLast_inactive _ hprev
  have hsc2 := snoozeCurrent_eq m.snoozeCurrent ev hls1
  have hts2 : (m.snoozeCurrent.snoozeCurrent).snooze_timers =
      (deactivateLast m.snooze_timers ++
        [{ active := false, delay_ms := 300000 }]) ++
        [{ active := true, delay_ms := 300000 }] := by
    rw [hsc2]
    rw [(notify_frame _ _).2.2.2.2.1]
    rw [hts1, deactivateLast_append_one]
  refine ⟨?_, ?_, ?_, ?_, ?_, ?_, ?_, ?_, ?_, ?_⟩
  · rw [hsc1]; exact (notify_frame _ _).1
  · rw [hsc1]; exact (notify_frame _ _).2.1
  · rw [hsc1]; exact (notify_frame _ _).2.2.1
  · rw [hsc1]; exact (notify_frame _ _).2.2.2.1
  · rw [hts1, filter_active_concat _ _ hinact rfl]
    rfl
  · rw [hts1, List.getLast?_concat]
  · have hin2 : ∀ h ∈ deactivateLast m.snooze_timers ++
        [{ active := false, delay_ms := 300000 }], h.active = false := by
      intro h hh
      rcases List.mem_append.mp hh with hmem | hmem
      · exact hinact h hmem
      · rw [List.mem_singleton] at hmem
        subst hmem
        rfl
    rw [hts2, filter_active_concat _ _ hin2 rfl]
    rfl
  · rw [hts2, List.getLast?_concat]
  · rw [hts2, List.dropLast_concat, List.getLast?_concat]
  · intro m'
    exact ⟨(fireSnooze_frame m').1, (fireSnooze_frame m').2.1⟩

/-- Witness for C9 on a concrete manager with a remembered start
notification and no snooze timer yet. -/
theorem snooze_spec_witness :
    ({ mgrTracking startEventSame with
        last_start_notification := some startEventSame } :
      Mgr).last_start_notification = some startEventSame ∧
    (∀ h ∈ ({ mgrTracking startEventSame with
        last_start_notification := some startEventSame } :
      Mgr).snooze_timers.dropLast, h.active = false) ∧
    ({ mgrTracking startEventSame with
        last_start_notification := some startEventSame } :
      Mgr).snoozeCurrent.svc =
      ({ mgrTracking startEventSame with
          last_start_notification := some startEventSame } : Mgr).svc ∧
    (({ mgrTracking startEventSame with
        last_start_notification := some startEventSame } :
      Mgr).snoozeCurrent.snooze_timers.filter (fun h => h.active)).length
      = 1 ∧
    ({ mgrTracking startEventSame with
        last_start_notification := some startEventSame } :
      Mgr).snoozeCurrent.snooze_timers.getLast? =
      some { active := true, delay_ms := 300000 } ∧
    (({ mgrTracking startEventSame with
        last_start_notification := some startEventSame } :
      Mgr).snoozeCurrent.snoozeCurrent.snooze_timers.filter
        (fun h => h.active)).length = 1 ∧
    ({ mgrTracking startEventSame with
        last_start_notification := some startEventSame } :
      Mgr).snoozeCurrent.snoozeCurrent.snooze_timers.dropLast.getLast? =
      some { active := false, delay_ms := 300000 } :=
  have h := snooze_spec
    { mgrTracking startEventSame with
        last_start_notification := some startEventSame } startEventSame rfl
    (by decide)
  ⟨rfl, by decide, h.1, h.2.2.2.2.1, h.2.2.2.2.2.1, h.2.2.2.2.2.2.1,
    h.2.2.2.2.2.2.2.2.1⟩

end ActivityPlanner
